import Mathlib

/-!
Verification of the demand-system IV estimation core (Koijen–Yogo demand
asset pricing notebook).  The notebook's estimation cells are embedded
shallowly: a row of the observation table becomes a record, the two
estimators become functions over a list of rows, `np.linalg.inv` becomes an
`Option`-valued inverse that fails exactly on singular matrices, and each
`while dchange > 1e-4` loop becomes a fuel-indexed recursion whose
out-of-fuel outcome is kept distinct from a fatal linear-algebra error.
The transcendental primitives `np.exp` / `np.log` are abstracted as
function parameters `aexp` / `alog`, so that every definition stays
executable over `ℚ` and can also be instantiated at `ℝ` with `Real.exp` /
`Real.log`.
-/

namespace DemandIV

open Matrix

variable {α : Type} [LinearOrderedField α]

/-- One row of the observation table for the selected manager: portfolio
weight (`vrweight` column), log market equity (`vLNme`), its instrument
(`vLNmeIV`) and the `k` characteristics (`mchars`). -/
structure Obs (k : ℕ) (α : Type) where
  weight : α
  lnme : α
  lnmeIV : α
  chars : Fin k → α
deriving DecidableEq

variable {k : ℕ}

/-- Reduced regressor row `[characteristics | 1]`, as used by the
constrained branches (`mX = np.concatenate([mchars, vones], axis=1)`). -/
def crow (o : Obs k α) : Fin (k + 1) → α :=
  Fin.snoc o.chars 1

/-- Design-matrix row `[log_market_value | characteristics | 1]`
(`mX = np.concatenate([vLNme, mchars, vones], axis=1)`). -/
def xrow (o : Obs k α) : Fin (k + 2) → α :=
  Fin.cons o.lnme (crow o)

/-- Instrument-matrix row `[log_market_value_instrument | characteristics | 1]`
(`mZ = np.concatenate([vLNmeIV, mchars, vones], axis=1)`). -/
def zrow (o : Obs k α) : Fin (k + 2) → α :=
  Fin.cons o.lnmeIV (crow o)

/-- Dot product of two coefficient-indexed vectors. -/
def dotV {m : ℕ} (v w : Fin m → α) : α :=
  ∑ i, v i * w i

/-- Cross-product matrix `Fᵀ G` of two row-builders over a list of rows:
entry `(i, j)` is `∑_rows f row i * g row j` (e.g. `mZ.T @ mX`). -/
def crossM {m : ℕ} (rows : List (Obs k α)) (f g : Obs k α → Fin m → α) :
    Matrix (Fin m) (Fin m) α :=
  Matrix.of fun i j => (rows.map fun o => f o i * g o j).sum

/-- Weighted cross-product matrix `(diag w · F)ᵀ G`: entry `(i, j)` is
`∑_rows w row * f row i * g row j` (e.g. `mZ_tilde.T @ mX`). -/
def crossW {m : ℕ} (rows : List (Obs k α)) (w : Obs k α → α)
    (f g : Obs k α → Fin m → α) : Matrix (Fin m) (Fin m) α :=
  Matrix.of fun i j => (rows.map fun o => w o * f o i * g o j).sum

/-- Row-builder applied against a per-row scalar: `Fᵀ v`, entry `i` is
`∑_rows f row i * v row` (e.g. `mZ.T @ vLNrweight`). -/
def rhsV {m : ℕ} (rows : List (Obs k α)) (f : Obs k α → Fin m → α)
    (v : Obs k α → α) : Fin m → α :=
  fun i => (rows.map fun o => f o i * v o).sum

/-- Determinant by Laplace expansion along the first row (an executable
form of `Matrix.det`, to which it is proved equal below). -/
def detF : {m : ℕ} → Matrix (Fin m) (Fin m) α → α
  | 0, _ => 1
  | m + 1, A =>
    ∑ j : Fin (m + 1), (-1) ^ (j : ℕ) * A 0 j * detF (A.submatrix Fin.succ j.succAbove)

/-- Adjugate by cofactors (an executable form of `Matrix.adjugate`, to
which it is proved equal below). -/
def adjF : {m : ℕ} → Matrix (Fin m) (Fin m) α → Matrix (Fin m) (Fin m) α
  | 0, _ => 1
  | _ + 1, A =>
    Matrix.of fun i j =>
      (-1) ^ ((j : ℕ) + (i : ℕ)) * detF (A.submatrix (Fin.succAbove j) (Fin.succAbove i))

/-- Matrix inversion as performed by `np.linalg.inv`: defined when the
matrix is nonsingular, a fatal error (`none`) on a singular input. -/
def minv {m : ℕ} (A : Matrix (Fin m) (Fin m) α) :
    Option (Matrix (Fin m) (Fin m) α) :=
  if detF A = 0 then none else some ((detF A)⁻¹ • adjF A)

/-- Rows retained by the linear estimator:
`vloc = np.argwhere(vrweight > 0)` / `mdata0 = mdata[vloc]`. -/
def posRows (rows : List (Obs k α)) : List (Obs k α) :=
  rows.filter fun o => decide (0 < o.weight)

variable (alog : α → α)

/-- Unconstrained linear IV estimate
`np.linalg.inv(mZ.T @ mX) @ mZ.T @ vLNrweight` over the positive-weight
rows, with `vLNrweight = np.log(vrweight[vloc])` abstracted through `alog`. -/
def vb_linear_unc (rows : List (Obs k α)) : Option (Fin (k + 2) → α) :=
  match minv (crossM (posRows rows) zrow xrow) with
  | none => none
  | some Ainv => some (Ainv.mulVec (rhsV (posRows rows) zrow fun o => alog o.weight))

/-- Linear IV estimator (the whole `## Linear IV` cell): the unconstrained
two-stage solve, then the constrained re-solve
`np.linalg.inv(mX.T @ mX) @ mX.T @ (vLNrweight - .99 * vLNme)` with the
market-value coefficient pinned at `.99` when the unconstrained first
coefficient exceeds `.99`. -/
def vb_linearIV (rows : List (Obs k α)) : Option (Fin (k + 2) → α) :=
  match vb_linear_unc alog rows with
  | none => none
  | some b =>
    if 99 / 100 < b 0 then
      match minv (crossM (posRows rows) crow crow) with
      | none => none
      | some Binv =>
        some (Fin.cons (99 / 100)
          (Binv.mulVec (rhsV (posRows rows) crow
            fun o => alog o.weight - 99 / 100 * o.lnme)))
    else some b

variable (aexp : α → α)

/-- Latent demand of one row under the unconstrained nonlinear model:
`vlatent = vrweight * np.exp(-mX @ vb)`, with `np.exp` abstracted as `aexp`. -/
def latentU (o : Obs k α) (b : Fin (k + 2) → α) : α :=
  o.weight * aexp (-(dotV (xrow o) b))

/-- Latent demand of one row under the constrained nonlinear model:
`vlatent = vrweight * np.exp(-.99 * vLNme - mX @ vb)` with `mX = [chars | 1]`. -/
def latentC (o : Obs k α) (b : Fin (k + 1) → α) : α :=
  o.weight * aexp (-(99 / 100) * o.lnme - dotV (crow o) b)

/-- One unconstrained Gauss–Newton update of the nonlinear IV loop:
`vb + np.linalg.inv(mZ_tilde.T @ mX) @ mZ.T @ (vlatent - 1)` over all rows. -/
def stepU (rows : List (Obs k α)) (b : Fin (k + 2) → α) :
    Option (Fin (k + 2) → α) :=
  match minv (crossW rows (fun o => latentU aexp o b) zrow xrow) with
  | none => none
  | some Ainv => some (b + Ainv.mulVec (rhsV rows zrow fun o => latentU aexp o b - 1))

/-- One constrained Gauss–Newton update:
`vb + np.linalg.inv(mX_tilde.T @ mX) @ mX.T @ (vlatent - 1)` with the
reduced design `mX = [chars | 1]` over all rows. -/
def stepC (rows : List (Obs k α)) (b : Fin (k + 1) → α) :
    Option (Fin (k + 1) → α) :=
  match minv (crossW rows (fun o => latentC aexp o b) crow crow) with
  | none => none
  | some Ainv => some (b + Ainv.mulVec (rhsV rows crow fun o => latentC aexp o b - 1))

/-- Convergence measure of one loop pass:
`dchange = np.max(np.abs(vb - vb_new))`. -/
def dchange {m : ℕ} (v w : Fin (m + 1) → α) : α :=
  Finset.univ.sup' ⟨0, Finset.mem_univ 0⟩ fun i => |v i - w i|

/-- Outcome of a fuel-indexed run of one `while dchange > 1e-4` loop:
normal exit with the converged vector, a fatal `np.linalg.inv` error, or
exhaustion of the allotted fuel (the loop itself is uncapped). -/
inductive GNRes (α : Type) (m : ℕ) where
  | ok (v : Fin m → α)
  | sing
  | fuelOut
deriving DecidableEq

/-- The `while dchange > 1e-4` loop shared by both nonlinear branches:
starting from `dchange = 1` the body always runs, each pass replaces the
iterate by `f` applied to it, and the loop exits as soon as the computed
`dchange` is at most `1e-4`. -/
def gnLoop {m : ℕ} (f : (Fin (m + 1) → α) → Option (Fin (m + 1) → α)) :
    ℕ → (Fin (m + 1) → α) → GNRes α (m + 1)
  | 0, _ => .fuelOut
  | fuel + 1, b =>
    match f b with
    | none => .sing
    | some b2 =>
      if dchange b b2 ≤ 1 / 10000 then .ok b2 else gnLoop f fuel b2

/-- Nonlinear IV estimator (the whole `## Non-linear IV` cell): run the
unconstrained loop from the supplied start `bl` (the linear estimate); if
the converged first coefficient exceeds `.99`, rerun the reduced loop
reseeded from `bl[1:]` and prepend `.99` to its converged vector. -/
def vb_nonlinearIV (rows : List (Obs k α)) (bl : Fin (k + 2) → α)
    (fuel : ℕ) : GNRes α (k + 2) :=
  match gnLoop (stepU aexp rows) fuel bl with
  | .sing => .sing
  | .fuelOut => .fuelOut
  | .ok b =>
    if 99 / 100 < b 0 then
      match gnLoop (stepC aexp rows) fuel (Fin.tail bl) with
      | .sing => .sing
      | .fuelOut => .fuelOut
      | .ok bc => .ok (Fin.cons (99 / 100) bc)
    else .ok b

/-- The two estimation cells run in notebook order: the linear estimate is
produced first and then handed to the nonlinear estimator as its start. -/
def runEstimators (rows : List (Obs k α)) (fuel : ℕ) :
    Option ((Fin (k + 2) → α) × GNRes α (k + 2)) :=
  match vb_linearIV alog rows with
  | none => none
  | some bl => some (bl, vb_nonlinearIV aexp rows bl fuel)

/-- Loop-outcome test used when evaluating witnesses. -/
def isOk {m : ℕ} : GNRes α m → Bool
  | .ok _ => true
  | _ => false

/-- Converged vector of a loop outcome, with a default for the other cases. -/
def okD {m : ℕ} : GNRes α m → (Fin m → α) → (Fin m → α)
  | .ok v, _ => v
  | _, d => d

/-- Matrix whose `i`-th row is the row-builder applied to the `i`-th list
element; `matOf l xrow` is the spec's design matrix `X` of shape
`(l.length, k+2)`, and similarly for `zrow` / `crow`. -/
def matOf {β : Type} (l : List β) {m : ℕ} (f : β → Fin m → α) :
    Matrix (Fin l.length) (Fin m) α :=
  Matrix.of fun i j => f (l.get i) j

/-- Vector of a per-row scalar over a list of rows. -/
def vecOf {β : Type} (l : List β) (v : β → α) : Fin l.length → α :=
  fun i => v (l.get i)

/-- Following the spec: the two-stage least-squares normal equation
`β = (Zᵀ X)⁻¹ Zᵀ y` over a list of retained rows, stated with genuine
matrix transposes, products and inverses and with `y` the (abstracted)
natural log of the retained weights. -/
noncomputable def linearIV_tsls (l : List (Obs k α)) : Fin (k + 2) → α :=
  (((matOf l zrow)ᵀ * matOf l xrow)⁻¹).mulVec
    ((matOf l zrow)ᵀ.mulVec (vecOf l fun o => alog o.weight))

/-- Following the spec: the constrained ordinary-least-squares re-solve on
the reduced design `X' = [characteristics | 1]` against the adjusted
dependent variable `y - c_max · log_market_value`. -/
noncomputable def linearOLS_constrained (l : List (Obs k α)) : Fin (k + 1) → α :=
  (((matOf l crow)ᵀ * matOf l crow)⁻¹).mulVec
    ((matOf l crow)ᵀ.mulVec (vecOf l fun o => alog o.weight - 99 / 100 * o.lnme))

/-- Following the spec: one Gauss–Newton step
`β + (Z̃ᵀ X)⁻¹ Zᵀ (latent - 1)` with `latent = weight ⊙ exp(-X·β)` and
`Z̃ = diag(latent) · Z`, over all rows of the observation set. -/
noncomputable def gaussNewtonUpdate (rows : List (Obs k α))
    (b : Fin (k + 2) → α) : Fin (k + 2) → α :=
  b + ((((Matrix.diagonal (vecOf rows fun o => latentU aexp o b)) *
      matOf rows zrow)ᵀ * matOf rows xrow)⁻¹).mulVec
    ((matOf rows zrow)ᵀ.mulVec (vecOf rows (fun o => latentU aexp o b) - 1))

/-- Following the spec: one constrained Gauss–Newton step on the reduced
design, with `latent = weight ⊙ exp(-c_max·log_market_value - X'·β)`. -/
noncomputable def gaussNewtonUpdateC (rows : List (Obs k α))
    (b : Fin (k + 1) → α) : Fin (k + 1) → α :=
  b + ((((Matrix.diagonal (vecOf rows fun o => latentC aexp o b)) *
      matOf rows crow)ᵀ * matOf rows crow)⁻¹).mulVec
    ((matOf rows crow)ᵀ.mulVec (vecOf rows (fun o => latentC aexp o b) - 1))

/-- Rational stand-in for `np.log` on witness data (agrees with the log at
weight 1: it sends 1 to 0). -/
def qlog : ℚ → ℚ := fun x => x - 1

/-- Rational stand-in for `np.exp` on witness data (agrees with the exp at
exponent 0: it sends 0 to 1). -/
def qexp : ℚ → ℚ := fun x => x + 1

/-- Constant-one stand-in for `np.exp`, used by witness data whose loop
fixed point does not depend on the exponent. -/
def qone : ℚ → ℚ := fun _ => 1

/-- Identity stand-in for `np.log` on witness data exercising the
constrained linear branch. -/
def qid : ℚ → ℚ := fun x => x

/-- Witness observation set: two unit-weight rows whose instrument and
regressor columns make `Zᵀ X` invertible. -/
def wData : List (Obs 0 ℚ) := [⟨1, 1, 0, ![]⟩, ⟨1, 0, 1, ![]⟩]

/-- Witness observation set driving the unconstrained linear estimate
above the ceiling (its first coefficient solves to 0.998 under `qid`). -/
def cData : List (Obs 0 ℚ) := [⟨999 / 1000, 1, 0, ![]⟩, ⟨1 / 1000, 0, 1, ![]⟩]

/-- Degenerate observation set: no rows, so every cross-product matrix is
singular. -/
def eData : List (Obs 0 ℚ) := []

/-- First counterexample row: weight `7.4·e⁻⁶`, log market value `10⁴`,
instrument `1`. -/
noncomputable def cxO1 : Obs 0 ℝ := ⟨74 / 10 * Real.exp (-6), 10000, 1, ![]⟩

/-- Second counterexample row: weight `e⁻⁴`, log market value `-10⁴`,
instrument `1`. -/
noncomputable def cxO2 : Obs 0 ℝ := ⟨Real.exp (-4), -10000, 1, ![]⟩

/-- Third counterexample row: weight `e⁻⁵`, log market value `0`,
instrument `0`. -/
noncomputable def cxO3 : Obs 0 ℝ := ⟨Real.exp (-5), 0, 0, ![]⟩

/-- Counterexample observation set over `ℝ`: three positive-weight rows
(total weight about 0.043) with market-value column `(10⁴, -10⁴, 0)` and
instrument column `(1, 1, 0)`. -/
noncomputable def cxData : List (Obs 0 ℝ) := [cxO1, cxO2, cxO3]

/-- Counterexample start vector: the Gauss–Newton step from it moves by
exactly `1e-4` in the first coordinate, so the loop exits at once. -/
noncomputable def cxSeed : Fin 2 → ℝ := ![-(1 / 10000), -5]

/-- Vector returned by the nonlinear loop on the counterexample data. -/
noncomputable def cxRet : Fin 2 → ℝ := ![0, -5]

/-- Result of one further Gauss–Newton update applied to the returned
vector on the counterexample data: its first coordinate moves by about
`0.085`, far beyond the tolerance. -/
noncomputable def cxNext : Fin 2 → ℝ :=
  ![(74 / 10 * Real.exp (-1) + Real.exp 1 - 2) /
      (10000 * (74 / 10 * Real.exp (-1) - Real.exp 1)), -5]

/-! Helper lemmas. -/

theorem opt_eq_some {β : Type} (o : Option β) (d b : β) (h1 : o.isSome = true)
    (h2 : o.getD d = b) : o = some b := by
  cases o <;> simp_all

theorem res_eq_ok {m : ℕ} (r : GNRes α m) (d v : Fin m → α) (h1 : isOk r = true)
    (h2 : okD r d = v) : r = .ok v := by
  cases r <;> simp_all [isOk, okD]

theorem detF_eq_det {m : ℕ} (A : Matrix (Fin m) (Fin m) α) : detF A = A.det := by
  induction m with
  | zero => rw [detF, Matrix.det_fin_zero]
  | succ n ih =>
    rw [detF, Matrix.det_succ_row_zero]
    exact Finset.sum_congr rfl fun j _ => by rw [ih]

theorem adjF_eq_adjugate {m : ℕ} (A : Matrix (Fin m) (Fin m) α) :
    adjF A = A.adjugate := by
  cases m with
  | zero => rw [adjF, Matrix.adjugate_subsingleton]
  | succ n =>
    ext i j
    rw [adjF, Matrix.adjugate_fin_succ_eq_det_submatrix]
    simp only [Matrix.of_apply, detF_eq_det]

theorem minv_eq {m : ℕ} (A : Matrix (Fin m) (Fin m) α) :
    minv A = if A.det = 0 then none else some A⁻¹ := by
  rw [minv, detF_eq_det, adjF_eq_adjugate]
  split
  · rfl
  · rw [Matrix.inv_def, Ring.inverse_eq_inv]

theorem list_map_sum_eq {β : Type} (l : List β) (f : β → α) :
    (l.map f).sum = ∑ i : Fin l.length, f (l.get i) := by
  conv_lhs => rw [← List.ofFn_get l, List.map_ofFn, List.sum_ofFn]
  rfl

theorem crossM_eq {m : ℕ} (l : List (Obs k α)) (f g : Obs k α → Fin m → α) :
    crossM l f g = (matOf l f)ᵀ * matOf l g := by
  ext i j
  show (l.map fun o => f o i * g o j).sum = _
  rw [list_map_sum_eq]
  simp [Matrix.mul_apply, matOf]

theorem crossW_eq {m : ℕ} (l : List (Obs k α)) (w : Obs k α → α)
    (f g : Obs k α → Fin m → α) :
    crossW l w f g = ((Matrix.diagonal (vecOf l w)) * matOf l f)ᵀ * matOf l g := by
  ext i j
  show (l.map fun o => w o * f o i * g o j).sum = _
  rw [list_map_sum_eq, Matrix.mul_apply]
  refine Finset.sum_congr rfl fun r _ => ?_
  rw [Matrix.transpose_apply, Matrix.diagonal_mul]
  simp only [matOf, vecOf, Matrix.of_apply]

theorem rhsV_eq {m : ℕ} (l : List (Obs k α)) (f : Obs k α → Fin m → α)
    (v : Obs k α → α) :
    rhsV l f v = (matOf l f)ᵀ.mulVec (vecOf l v) := by
  funext i
  show (l.map fun o => f o i * v o).sum = _
  rw [list_map_sum_eq]
  simp [Matrix.mulVec, Matrix.dotProduct, matOf, vecOf]

theorem gnLoop_zero {m : ℕ} (f : (Fin (m + 1) → α) → Option (Fin (m + 1) → α))
    (b : Fin (m + 1) → α) : gnLoop f 0 b = .fuelOut := rfl

theorem gnLoop_succ {m : ℕ} (f : (Fin (m + 1) → α) → Option (Fin (m + 1) → α))
    (fuel : ℕ) (b b2 : Fin (m + 1) → α) (hf : f b = some b2) :
    gnLoop f (fuel + 1) b =
      if dchange b b2 ≤ 1 / 10000 then .ok b2 else gnLoop f fuel b2 := by
  rw [gnLoop, hf]

theorem gnLoop_succ_none {m : ℕ} (f : (Fin (m + 1) → α) → Option (Fin (m + 1) → α))
    (fuel : ℕ) (b : Fin (m + 1) → α) (hf : f b = none) :
    gnLoop f (fuel + 1) b = .sing := by
  rw [gnLoop, hf]

theorem gnLoop_ok_last {m : ℕ} (f : (Fin (m + 1) → α) → Option (Fin (m + 1) → α)) :
    ∀ fuel b v, gnLoop f fuel b = .ok v →
      ∃ u, f u = some v ∧ dchange u v ≤ 1 / 10000 := by
  intro fuel
  induction fuel with
  | zero => intro b v h; rw [gnLoop_zero] at h; cases h
  | succ n ih =>
    intro b v h
    cases hf : f b with
    | none => rw [gnLoop_succ_none f n b hf] at h; cases h
    | some b2 =>
      rw [gnLoop_succ f n b b2 hf] at h
      by_cases hd : dchange b b2 ≤ 1 / 10000
      · rw [if_pos hd] at h
        cases h
        exact ⟨b, hf, hd⟩
      · rw [if_neg hd] at h
        exact ih b2 v h

theorem dchange_self {m : ℕ} (v : Fin (m + 1) → α) : dchange v v = 0 := by
  simp [dchange]

/-! Claim theorems. -/

/-- Claim C1: on every observation set on which estimation completes, both
the linear-IV and the nonlinear-IV estimator return a coefficient vector
whose first element (the market-value coefficient) is at most the
constraint ceiling 0.99. -/
theorem ceiling_bound (alog aexp : α → α) (rows : List (Obs k α)) (fuel : ℕ) :
    (∀ b, vb_linearIV alog rows = some b → b 0 ≤ 99 / 100) ∧
    (∀ seed b, vb_nonlinearIV aexp rows seed fuel = .ok b → b 0 ≤ 99 / 100) := by
  constructor
  · intro b h
    rw [vb_linearIV] at h
    cases hu : vb_linear_unc alog rows with
    | none => rw [hu] at h; cases h
    | some b0 =>
      rw [hu] at h
      dsimp only at h
      by_cases hgt : 99 / 100 < b0 0
      · rw [if_pos hgt] at h
        cases hm : minv (crossM (posRows rows) crow crow) with
        | none => rw [hm] at h; cases h
        | some Binv =>
          rw [hm] at h
          cases h
          simp
      · rw [if_neg hgt] at h
        cases h
        exact le_of_not_lt hgt
  · intro seed b h
    rw [vb_nonlinearIV] at h
    cases hl : gnLoop (stepU aexp rows) fuel seed with
    | sing => rw [hl] at h; cases h
    | fuelOut => rw [hl] at h; cases h
    | ok v =>
      rw [hl] at h
      dsimp only at h
      by_cases hgt : 99 / 100 < v 0
      · rw [if_pos hgt] at h
        cases hc : gnLoop (stepC aexp rows) fuel (Fin.tail seed) with
        | sing => rw [hc] at h; cases h
        | fuelOut => rw [hc] at h; cases h
        | ok vc =>
          rw [hc] at h
          cases h
          simp
      · rw [if_neg hgt] at h
        cases h
        exact le_of_not_lt hgt

/-- Claim C8: a singular cross-product matrix (`Zᵀ X` or `Xᵀ X` in the
linear estimator, `Z̃ᵀ X` or `X̃ᵀ X` in the nonlinear loop bodies) is a
fatal error propagated to the caller: the estimator returns no coefficient
vector, with no catch, conversion or retry anywhere on the path. -/
theorem singular_is_fatal (alog aexp : α → α) (rows : List (Obs k α)) (fuel : ℕ)
    (b seed : Fin (k + 2) → α) (c : Fin (k + 1) → α) :
    (detF (crossM (posRows rows) zrow xrow) = 0 → vb_linearIV alog rows = none) ∧
    (vb_linear_unc alog rows = some b → 99 / 100 < b 0 →
      detF (crossM (posRows rows) crow crow) = 0 → vb_linearIV alog rows = none) ∧
    (detF (crossW rows (fun o => latentU aexp o seed) zrow xrow) = 0 →
      stepU aexp rows seed = none) ∧
    (detF (crossW rows (fun o => latentC aexp o c) crow crow) = 0 →
      stepC aexp rows c = none) ∧
    (stepU aexp rows seed = none → gnLoop (stepU aexp rows) (fuel + 1) seed = .sing) ∧
    (gnLoop (stepU aexp rows) fuel seed = .sing →
      vb_nonlinearIV aexp rows seed fuel = .sing) := by
  refine ⟨fun h => ?_, fun hb hgt h => ?_, fun h => ?_, fun h => ?_,
    fun h => gnLoop_succ_none _ fuel seed h, fun h => ?_⟩
  · rw [vb_linearIV, vb_linear_unc, minv, if_pos h]
  · rw [vb_linearIV, hb]
    dsimp only
    rw [if_pos hgt, minv, if_pos h]
  · rw [stepU, minv, if_pos h]
  · rw [stepC, minv, if_pos h]
  · rw [vb_nonlinearIV, h]

/-- Claim C9: running the nonlinear estimator does not disturb the linear
result: whenever the notebook pipeline completes its linear stage, the
linear component of its output is exactly the standalone linear estimate,
and the nonlinear component is a fresh value computed from it. -/
theorem pipeline_preserves_linear (alog aexp : α → α) (rows : List (Obs k α))
    (fuel : ℕ) (p : (Fin (k + 2) → α) × GNRes α (k + 2))
    (h : runEstimators alog aexp rows fuel = some p) :
    vb_linearIV alog rows = some p.1 ∧
    p.2 = vb_nonlinearIV aexp rows p.1 fuel := by
  rw [runEstimators] at h
  cases hl : vb_linearIV alog rows with
  | none => rw [hl] at h; cases h
  | some bl =>
    rw [hl] at h
    cases h
    exact ⟨rfl, rfl⟩

/-- Claim C10: because `dchange` is initialised to 1, the nonlinear loop
always executes its body: an `ok` outcome is always the output of some
Gauss–Newton update whose change was within tolerance; a seed whose first
update lands within tolerance yields that updated vector (not the seed
as-is); and the seed itself is returned when the update fixes it exactly. -/
theorem loop_runs_at_least_once (aexp : α → α) (rows : List (Obs k α))
    (fuel : ℕ) (b0 b1 : Fin (k + 2) → α) :
    (∀ v, gnLoop (stepU aexp rows) fuel b0 = .ok v →
      ∃ u, stepU aexp rows u = some v ∧ dchange u v ≤ 1 / 10000) ∧
    (stepU aexp rows b0 = some b1 → dchange b0 b1 ≤ 1 / 10000 →
      gnLoop (stepU aexp rows) (fuel + 1) b0 = .ok b1) ∧
    (stepU aexp rows b0 = some b0 → gnLoop (stepU aexp rows) (fuel + 1) b0 = .ok b0) := by
  refine ⟨fun v h => gnLoop_ok_last _ fuel b0 v h, fun hs hd => ?_, fun hs => ?_⟩
  · rw [gnLoop_succ _ fuel b0 b1 hs, if_pos hd]
  · rw [gnLoop_succ _ fuel b0 b0 hs, if_pos ?_]
    rw [dchange_self]
    norm_num

/-- Witness for C1: on the two-row witness data both estimators complete,
and the ceiling bound obtained from `ceiling_bound` holds at their outputs. -/
theorem ceiling_bound_witness :
    vb_linearIV qlog wData = some ![0, 0] ∧
    vb_nonlinearIV qexp wData ![0, 0] 1 = .ok ![0, 0] ∧
    ((![0, 0] : Fin 2 → ℚ) 0 ≤ 99 / 100) := by
  have h1 : vb_linearIV qlog wData = some ![0, 0] :=
    opt_eq_some _ 0 _ (of_decide_eq_true (by with_unfolding_all rfl))
      (of_decide_eq_true (by with_unfolding_all rfl))
  have h2 : vb_nonlinearIV qexp wData ![0, 0] 1 = .ok ![0, 0] :=
    res_eq_ok _ 0 _ (of_decide_eq_true (by with_unfolding_all rfl))
      (of_decide_eq_true (by with_unfolding_all rfl))
  exact ⟨h1, h2, (ceiling_bound qlog qexp wData 1).2 ![0, 0] ![0, 0] h2⟩

/-- Witness for C8: on the empty observation set every cross-product
matrix is singular, and `singular_is_fatal` yields the fatal outcomes of
both estimators. -/
theorem singular_is_fatal_witness :
    detF (crossM (posRows eData) zrow xrow) = 0 ∧
    vb_linearIV qlog eData = none ∧
    stepU qexp eData ![0, 0] = none ∧
    gnLoop (stepU qexp eData) 1 ![0, 0] = .sing ∧
    vb_nonlinearIV qexp eData ![0, 0] 1 = .sing := by
  have hd : detF (crossM (posRows eData) zrow xrow) = 0 :=
    of_decide_eq_true (by with_unfolding_all rfl)
  have hs : stepU qexp eData ![0, 0] = none :=
    of_decide_eq_true (by with_unfolding_all rfl)
  have hloop : gnLoop (stepU qexp eData) 1 ![0, 0] = .sing :=
    (singular_is_fatal qlog qexp eData 0 ![0, 0] ![0, 0] ![0]).2.2.2.2.1 hs
  exact ⟨hd, (singular_is_fatal qlog qexp eData 0 ![0, 0] ![0, 0] ![0]).1 hd, hs,
    hloop, (singular_is_fatal qlog qexp eData 1 ![0, 0] ![0, 0] ![0]).2.2.2.2.2 hloop⟩

/-- Witness for C9: the pipeline on the witness data completes, and
`pipeline_preserves_linear` recovers the standalone linear estimate from
the pipeline output. -/
theorem pipeline_preserves_linear_witness :
    runEstimators qlog qexp wData 1 = some (![0, 0], .ok ![0, 0]) ∧
    vb_linearIV qlog wData = some ![0, 0] := by
  have h1 : vb_linearIV qlog wData = some ![0, 0] :=
    opt_eq_some _ 0 _ (of_decide_eq_true (by with_unfolding_all rfl))
      (of_decide_eq_true (by with_unfolding_all rfl))
  have h2 : vb_nonlinearIV qexp wData ![0, 0] 1 = .ok ![0, 0] :=
    res_eq_ok _ 0 _ (of_decide_eq_true (by with_unfolding_all rfl))
      (of_decide_eq_true (by with_unfolding_all rfl))
  have h : runEstimators qlog qexp wData 1 = some (![0, 0], .ok ![0, 0]) := by
    rw [runEstimators, h1]
    dsimp only
    rw [h2]
  exact ⟨h, (pipeline_preserves_linear qlog qexp wData 1 (![0, 0], .ok ![0, 0]) h).1⟩

/-- Witness for C10: on the witness data the seed is an exact fixed point
of the Gauss–Newton update, and `loop_runs_at_least_once` shows the loop
returns it after the one mandatory body execution. -/
theorem loop_runs_at_least_once_witness :
    stepU qexp wData ![0, 0] = some ![0, 0] ∧
    gnLoop (stepU qexp wData) 1 ![0, 0] = .ok ![0, 0] := by
  have hs : stepU qexp wData ![0, 0] = some ![0, 0] :=
    opt_eq_some _ 0 _ (of_decide_eq_true (by with_unfolding_all rfl))
      (of_decide_eq_true (by with_unfolding_all rfl))
  exact ⟨hs, (loop_runs_at_least_once qexp wData 0 ![0, 0] ![0, 0]).2.2 hs⟩

/-- Claim C2: on every observation set with at least one positive-weight
row and an invertible cross-product matrix, the unconstrained linear-IV
estimate equals `(Zᵀ X)⁻¹ Zᵀ y`, with `X = [log_market_value | chars | 1]`
and `Z = [log_market_value_instrument | chars | 1]` built only from the
positive-weight rows and `y` the element-wise log of their weights. -/
theorem linearIV_closed_form (alog : α → α) (rows : List (Obs k α))
    (hne : posRows rows ≠ [])
    (hdet : ((matOf (posRows rows) zrow)ᵀ * matOf (posRows rows) xrow).det ≠ 0) :
    vb_linear_unc alog rows = some (linearIV_tsls alog (posRows rows)) := by
  rw [vb_linear_unc, crossM_eq, minv_eq, if_neg hdet]
  dsimp only
  rw [linearIV_tsls, rhsV_eq]

/-- Claim C3: the linear constrained branch fires exactly when the
unconstrained first coefficient exceeds 0.99: below the ceiling the
unconstrained solve is returned unchanged, above it the result is the
reduced-design OLS solve against `y - 0.99 · log_market_value` with 0.99
prepended. -/
theorem linearIV_branch (alog : α → α) (rows : List (Obs k α))
    (b : Fin (k + 2) → α) (hunc : vb_linear_unc alog rows = some b)
    (hdet : ((matOf (posRows rows) crow)ᵀ * matOf (posRows rows) crow).det ≠ 0) :
    (b 0 ≤ 99 / 100 → vb_linearIV alog rows = some b) ∧
    (99 / 100 < b 0 → vb_linearIV alog rows =
      some (Fin.cons (99 / 100) (linearOLS_constrained alog (posRows rows)))) := by
  constructor
  · intro hle
    rw [vb_linearIV, hunc]
    dsimp only
    rw [if_neg (not_lt.mpr hle)]
  · intro hgt
    rw [vb_linearIV, hunc]
    dsimp only
    rw [if_pos hgt, crossM_eq, minv_eq, if_neg hdet]
    dsimp only
    rw [linearOLS_constrained, rhsV_eq]

/-- Claim C4: the nonlinear estimator builds its matrices over all rows
(the matrices in the update formula are indexed by the full row count),
each loop pass performs the Gauss–Newton update
`β + (Z̃ᵀ X)⁻¹ Zᵀ (latent - 1)` with `latent = weight ⊙ exp(-X·β)` and
`Z̃ = diag(latent)·Z`, the loop stops exactly when the maximum absolute
per-coefficient change is at most 1e-4, and the iteration is seeded from
the linear-IV output. -/
theorem nonlinear_unconstrained_spec (alog aexp : α → α)
    (rows : List (Obs k α)) (fuel : ℕ) (b b2 bl : Fin (k + 2) → α)
    (hdet : (((Matrix.diagonal (vecOf rows fun o => latentU aexp o b)) *
      matOf rows zrow)ᵀ * matOf rows xrow).det ≠ 0) :
    stepU aexp rows b = some (gaussNewtonUpdate aexp rows b) ∧
    (stepU aexp rows b = some b2 →
      gnLoop (stepU aexp rows) (fuel + 1) b =
        if dchange b b2 ≤ 1 / 10000 then .ok b2
        else gnLoop (stepU aexp rows) fuel b2) ∧
    (vb_linearIV alog rows = some bl →
      runEstimators alog aexp rows fuel =
        some (bl, vb_nonlinearIV aexp rows bl fuel)) ∧
    (gnLoop (stepU aexp rows) fuel bl = .ok b2 → ¬ 99 / 100 < b2 0 →
      vb_nonlinearIV aexp rows bl fuel = .ok b2) := by
  refine ⟨?_, fun hs => gnLoop_succ _ fuel b b2 hs, fun hl => ?_, fun hok hle => ?_⟩
  · rw [stepU, crossW_eq, minv_eq, if_neg hdet]
    dsimp only
    rw [gaussNewtonUpdate, rhsV_eq]
    rfl
  · rw [runEstimators, hl]
  · rw [vb_nonlinearIV, hok]
    dsimp only
    rw [if_neg hle]

/-- Claim C5: when the converged unconstrained nonlinear estimate exceeds
0.99, the estimator reruns the reduced iteration reseeded from the
elements after the first of the start vector (the linear estimate), with
design `X' = [chars | 1]` and latent
`weight ⊙ exp(-0.99·log_market_value - X'·β)`, and prepends 0.99 to the
converged reduced vector so the result again has length k+2. -/
theorem nonlinear_constrained_spec (aexp : α → α) (rows : List (Obs k α))
    (fuel : ℕ) (bl b : Fin (k + 2) → α) (bc c : Fin (k + 1) → α)
    (hok : gnLoop (stepU aexp rows) fuel bl = .ok b)
    (hgt : 99 / 100 < b 0) :
    (gnLoop (stepC aexp rows) fuel (Fin.tail bl) = .ok bc →
      vb_nonlinearIV aexp rows bl fuel = .ok (Fin.cons (99 / 100) bc)) ∧
    ((((Matrix.diagonal (vecOf rows fun o => latentC aexp o c)) *
        matOf rows crow)ᵀ * matOf rows crow).det ≠ 0 →
      stepC aexp rows c = some (gaussNewtonUpdateC aexp rows c)) := by
  constructor
  · intro hc
    rw [vb_nonlinearIV, hok]
    dsimp only
    rw [if_pos hgt, hc]
  · intro hdet
    rw [stepC, crossW_eq, minv_eq, if_neg hdet]
    dsimp only
    rw [gaussNewtonUpdateC, rhsV_eq]
    rfl

/-- Witness for C2: the witness data has positive-weight rows and an
invertible `Zᵀ X`, and `linearIV_closed_form` applies to it. -/
theorem linearIV_closed_form_witness :
    posRows wData ≠ [] ∧
    ((matOf (posRows wData) zrow)ᵀ * matOf (posRows wData) xrow).det ≠ 0 ∧
    vb_linear_unc qlog wData = some (linearIV_tsls qlog (posRows wData)) := by
  have hne : posRows wData ≠ [] := of_decide_eq_true (by with_unfolding_all rfl)
  have hF : detF (crossM (posRows wData) zrow xrow) = -1 :=
    of_decide_eq_true (by with_unfolding_all rfl)
  have hdet : ((matOf (posRows wData) zrow)ᵀ * matOf (posRows wData) xrow).det ≠ 0 := by
    rw [← crossM_eq, ← detF_eq_det, hF]
    norm_num
  exact ⟨hne, hdet, linearIV_closed_form qlog wData hne hdet⟩

set_option maxRecDepth 40000 in
/-- Witness for C3: on `cData` the unconstrained estimate solves to 0.998,
the branch fires, and `linearIV_branch` yields the constrained result,
which evaluates to `[0.99, 0.005]`. -/
theorem linearIV_branch_witness :
    vb_linear_unc qid cData = some ![499 / 500, 1 / 1000] ∧
    (99 / 100 < (![499 / 500, 1 / 1000] : Fin 2 → ℚ) 0) ∧
    vb_linearIV qid cData =
      some (Fin.cons (99 / 100) (linearOLS_constrained qid (posRows cData))) ∧
    vb_linearIV qid cData = some ![99 / 100, 1 / 200] := by
  have hunc : vb_linear_unc qid cData = some ![499 / 500, 1 / 1000] :=
    opt_eq_some _ 0 _ (of_decide_eq_true (by with_unfolding_all rfl))
      (of_decide_eq_true (by with_unfolding_all rfl))
  have hF : detF (crossM (posRows cData) crow crow) = 2 :=
    of_decide_eq_true (by with_unfolding_all rfl)
  have hdet : ((matOf (posRows cData) crow)ᵀ * matOf (posRows cData) crow).det ≠ 0 := by
    rw [← crossM_eq, ← detF_eq_det, hF]
    norm_num
  have hgt : 99 / 100 < (![499 / 500, 1 / 1000] : Fin 2 → ℚ) 0 := by norm_num
  have hdirect : vb_linearIV qid cData = some ![99 / 100, 1 / 200] :=
    opt_eq_some _ 0 _ (of_decide_eq_true (by with_unfolding_all rfl))
      (of_decide_eq_true (by with_unfolding_all rfl))
  exact ⟨hunc, hgt,
    (linearIV_branch qid cData ![499 / 500, 1 / 1000] hunc hdet).2 hgt, hdirect⟩

/-- Witness for C4: on the witness data the weighted cross-product is
invertible and `nonlinear_unconstrained_spec` supplies the update formula,
the pipeline seeding, and the converged unconstrained outcome. -/
theorem nonlinear_unconstrained_spec_witness :
    (((Matrix.diagonal (vecOf wData fun o => latentU qexp o ![0, 0])) *
      matOf wData zrow)ᵀ * matOf wData xrow).det ≠ 0 ∧
    stepU qexp wData ![0, 0] = some (gaussNewtonUpdate qexp wData ![0, 0]) ∧
    runEstimators qlog qexp wData 1 =
      some (![0, 0], vb_nonlinearIV qexp wData ![0, 0] 1) ∧
    vb_nonlinearIV qexp wData ![0, 0] 1 = .ok ![0, 0] := by
  have hF : detF (crossW wData (fun o => latentU qexp o ![0, 0]) zrow xrow) = -1 :=
    of_decide_eq_true (by with_unfolding_all rfl)
  have hdet : (((Matrix.diagonal (vecOf wData fun o => latentU qexp o ![0, 0])) *
      matOf wData zrow)ᵀ * matOf wData xrow).det ≠ 0 := by
    rw [← crossW_eq, ← detF_eq_det, hF]
    norm_num
  have hl : vb_linearIV qlog wData = some ![0, 0] :=
    opt_eq_some _ 0 _ (of_decide_eq_true (by with_unfolding_all rfl))
      (of_decide_eq_true (by with_unfolding_all rfl))
  have hloop : gnLoop (stepU qexp wData) 1 ![0, 0] = .ok ![0, 0] := by
    have hs : stepU qexp wData ![0, 0] = some ![0, 0] :=
      opt_eq_some _ 0 _ (of_decide_eq_true (by with_unfolding_all rfl))
        (of_decide_eq_true (by with_unfolding_all rfl))
    rw [gnLoop_succ _ 0 _ _ hs, if_pos ?_]
    rw [dchange_self]
    norm_num
  have hle : ¬ 99 / 100 < (![0, 0] : Fin 2 → ℚ) 0 := by norm_num
  exact ⟨hdet, (nonlinear_unconstrained_spec qlog qexp wData 1 ![0, 0] ![0, 0] ![0, 0] hdet).1,
    (nonlinear_unconstrained_spec qlog qexp wData 1 ![0, 0] ![0, 0] ![0, 0] hdet).2.2.1 hl,
    (nonlinear_unconstrained_spec qlog qexp wData 1 ![0, 0] ![0, 0] ![0, 0] hdet).2.2.2 hloop hle⟩

/-- Witness for C5: with the constant-one exponent stand-in and start
`[1, 0]`, the unconstrained loop converges above the ceiling; the reduced
loop reseeded from the tail converges, and `nonlinear_constrained_spec`
yields the prepended result and the reduced update formula. -/
theorem nonlinear_constrained_spec_witness :
    gnLoop (stepU qone wData) 1 ![1, 0] = .ok ![1, 0] ∧
    (99 / 100 < (![1, 0] : Fin 2 → ℚ) 0) ∧
    gnLoop (stepC qone wData) 1 (Fin.tail ![1, 0]) = .ok ![0] ∧
    vb_nonlinearIV qone wData ![1, 0] 1 = .ok (Fin.cons (99 / 100) ![0]) ∧
    (((Matrix.diagonal (vecOf wData fun o => latentC qone o ![0])) *
      matOf wData crow)ᵀ * matOf wData crow).det ≠ 0 ∧
    stepC qone wData ![0] = some (gaussNewtonUpdateC qone wData ![0]) := by
  have hok : gnLoop (stepU qone wData) 1 ![1, 0] = .ok ![1, 0] :=
    res_eq_ok _ 0 _ (of_decide_eq_true (by with_unfolding_all rfl))
      (of_decide_eq_true (by with_unfolding_all rfl))
  have hgt : 99 / 100 < (![1, 0] : Fin 2 → ℚ) 0 := by norm_num
  have hc : gnLoop (stepC qone wData) 1 (Fin.tail ![1, 0]) = .ok ![0] :=
    res_eq_ok _ 0 _ (of_decide_eq_true (by with_unfolding_all rfl))
      (of_decide_eq_true (by with_unfolding_all rfl))
  have hF : detF (crossW wData (fun o => latentC qone o ![0]) crow crow) = 2 :=
    of_decide_eq_true (by with_unfolding_all rfl)
  have hdet : (((Matrix.diagonal (vecOf wData fun o => latentC qone o ![0])) *
      matOf wData crow)ᵀ * matOf wData crow).det ≠ 0 := by
    rw [← crossW_eq, ← detF_eq_det, hF]
    norm_num
  exact ⟨hok, hgt, hc,
    (nonlinear_constrained_spec qone wData 1 ![1, 0] ![1, 0] ![0] ![0] hok hgt).1 hc,
    hdet,
    (nonlinear_constrained_spec qone wData 1 ![1, 0] ![1, 0] ![0] ![0] hok hgt).2 hdet⟩

/-! Evaluation helpers for the counterexample data. -/

theorem stepU_eval (aexp : α → α) (rows : List (Obs k α)) (b s : Fin (k + 2) → α)
    (hdet : (crossW rows (fun o => latentU aexp o b) zrow xrow).det ≠ 0)
    (h : (crossW rows (fun o => latentU aexp o b) zrow xrow).mulVec s =
      rhsV rows zrow fun o => latentU aexp o b - 1) :
    stepU aexp rows b = some (b + s) := by
  rw [stepU, minv_eq, if_neg hdet]
  dsimp only
  rw [← h, Matrix.mulVec_mulVec,
    Matrix.nonsing_inv_mul _ (isUnit_iff_ne_zero.mpr hdet), Matrix.one_mulVec]

theorem dchange_pair (v w : Fin 2 → α) :
    dchange v w = |v 0 - w 0| ⊔ |v 1 - w 1| := by
  rw [dchange]
  apply le_antisymm
  · apply Finset.sup'_le
    intro i _
    fin_cases i
    · exact le_sup_left
    · exact le_sup_right
  · apply sup_le
    · exact Finset.le_sup' (fun i => |v i - w i|) (Finset.mem_univ (0 : Fin 2))
    · exact Finset.le_sup' (fun i => |v i - w i|) (Finset.mem_univ (1 : Fin 2))

theorem xrow_at0 (o : Obs 0 α) : xrow o 0 = o.lnme := rfl

theorem xrow_at1 (o : Obs 0 α) : xrow o 1 = 1 := rfl

theorem zrow_at0 (o : Obs 0 α) : zrow o 0 = o.lnmeIV := rfl

theorem zrow_at1 (o : Obs 0 α) : zrow o 1 = 1 := rfl

theorem dotV_pair (v w : Fin 2 → α) : dotV v w = v 0 * w 0 + v 1 * w 1 := by
  simp [dotV, Fin.sum_univ_two]

theorem cx_l1 : latentU Real.exp cxO1 cxSeed = 74 / 10 := by
  rw [latentU, dotV_pair, xrow_at0, xrow_at1]
  simp only [cxO1, cxSeed, Matrix.cons_val_zero, Matrix.cons_val_one, Matrix.head_cons]
  rw [show -((10000 : ℝ) * -(1 / 10000) + 1 * -5) = 6 by norm_num, mul_assoc,
    ← Real.exp_add]
  norm_num

theorem cx_l2 : latentU Real.exp cxO2 cxSeed = 1 := by
  rw [latentU, dotV_pair, xrow_at0, xrow_at1]
  simp only [cxO2, cxSeed, Matrix.cons_val_zero, Matrix.cons_val_one, Matrix.head_cons]
  rw [show -((-10000 : ℝ) * -(1 / 10000) + 1 * -5) = 4 by norm_num, ← Real.exp_add]
  norm_num

theorem cx_l3 : latentU Real.exp cxO3 cxSeed = 1 := by
  rw [latentU, dotV_pair, xrow_at0, xrow_at1]
  simp only [cxO3, cxSeed, Matrix.cons_val_zero, Matrix.cons_val_one, Matrix.head_cons]
  rw [show -((0 : ℝ) * -(1 / 10000) + 1 * -5) = 5 by norm_num, ← Real.exp_add]
  norm_num

theorem cx_m1 : latentU Real.exp cxO1 cxRet = 74 / 10 * Real.exp (-1) := by
  rw [latentU, dotV_pair, xrow_at0, xrow_at1]
  simp only [cxO1, cxRet, Matrix.cons_val_zero, Matrix.cons_val_one, Matrix.head_cons]
  rw [show -((10000 : ℝ) * 0 + 1 * -5) = 5 by norm_num, mul_assoc, ← Real.exp_add]
  norm_num

theorem cx_m2 : latentU Real.exp cxO2 cxRet = Real.exp 1 := by
  rw [latentU, dotV_pair, xrow_at0, xrow_at1]
  simp only [cxO2, cxRet, Matrix.cons_val_zero, Matrix.cons_val_one, Matrix.head_cons]
  rw [show -((-10000 : ℝ) * 0 + 1 * -5) = 5 by norm_num, ← Real.exp_add]
  norm_num

theorem cx_m3 : latentU Real.exp cxO3 cxRet = 1 := by
  rw [latentU, dotV_pair, xrow_at0, xrow_at1]
  simp only [cxO3, cxRet, Matrix.cons_val_zero, Matrix.cons_val_one, Matrix.head_cons]
  rw [show -((0 : ℝ) * 0 + 1 * -5) = 5 by norm_num, ← Real.exp_add]
  norm_num

theorem cx_crossW_seed :
    crossW cxData (fun o => latentU Real.exp o cxSeed) zrow xrow =
      !![64000, 84 / 10; 64000, 94 / 10] := by
  ext i j
  show (cxData.map fun o => latentU Real.exp o cxSeed * zrow o i * xrow o j).sum = _
  rw [cxData]
  simp only [List.map_cons, List.map_nil, List.sum_cons, List.sum_nil,
    cx_l1, cx_l2, cx_l3]
  fin_cases i <;> fin_cases j <;>
    (simp [zrow_at0, zrow_at1, xrow_at0, xrow_at1, cxO1, cxO2, cxO3]
     try norm_num)

theorem cx_rhs_seed :
    rhsV cxData zrow (fun o => latentU Real.exp o cxSeed - 1) = ![64 / 10, 64 / 10] := by
  funext i
  show (cxData.map fun o => zrow o i * (latentU Real.exp o cxSeed - 1)).sum = _
  rw [cxData]
  simp only [List.map_cons, List.map_nil, List.sum_cons, List.sum_nil,
    cx_l1, cx_l2, cx_l3]
  fin_cases i <;>
    (simp [zrow_at0, zrow_at1, cxO1, cxO2, cxO3]
     try norm_num)

theorem cx_step_seed : stepU Real.exp cxData cxSeed = some cxRet := by
  have hdet : (crossW cxData (fun o => latentU Real.exp o cxSeed) zrow xrow).det ≠ 0 := by
    rw [cx_crossW_seed, Matrix.det_fin_two_of]
    norm_num
  have hmv : (crossW cxData (fun o => latentU Real.exp o cxSeed) zrow xrow).mulVec
      ![1 / 10000, 0] = rhsV cxData zrow fun o => latentU Real.exp o cxSeed - 1 := by
    rw [cx_crossW_seed, cx_rhs_seed]
    funext i
    fin_cases i <;>
      (simp [Matrix.mulVec, Matrix.dotProduct, Fin.sum_univ_two]
       norm_num)
  rw [stepU_eval Real.exp cxData cxSeed ![1 / 10000, 0] hdet hmv]
  congr 1
  funext i
  fin_cases i <;> simp [cxSeed, cxRet]

theorem cx_crossW_ret :
    crossW cxData (fun o => latentU Real.exp o cxRet) zrow xrow =
      !![10000 * (74 / 10 * Real.exp (-1) - Real.exp 1),
         74 / 10 * Real.exp (-1) + Real.exp 1;
         10000 * (74 / 10 * Real.exp (-1) - Real.exp 1),
         74 / 10 * Real.exp (-1) + Real.exp 1 + 1] := by
  ext i j
  show (cxData.map fun o => latentU Real.exp o cxRet * zrow o i * xrow o j).sum = _
  rw [cxData]
  simp only [List.map_cons, List.map_nil, List.sum_cons, List.sum_nil,
    cx_m1, cx_m2, cx_m3]
  fin_cases i <;> fin_cases j <;>
    (simp [zrow_at0, zrow_at1, xrow_at0, xrow_at1, cxO1, cxO2, cxO3]
     try ring)

theorem cx_rhs_ret :
    rhsV cxData zrow (fun o => latentU Real.exp o cxRet - 1) =
      ![74 / 10 * Real.exp (-1) + Real.exp 1 - 2,
        74 / 10 * Real.exp (-1) + Real.exp 1 - 2] := by
  funext i
  show (cxData.map fun o => zrow o i * (latentU Real.exp o cxRet - 1)).sum = _
  rw [cxData]
  simp only [List.map_cons, List.map_nil, List.sum_cons, List.sum_nil,
    cx_m1, cx_m2, cx_m3]
  fin_cases i <;>
    (simp [zrow_at0, zrow_at1, cxO1, cxO2, cxO3]
     try ring)

theorem cx_gap_pos : 0 < 74 / 10 * Real.exp (-1) - Real.exp 1 := by
  have h2 := Real.exp_one_lt_d9
  have hpos := Real.exp_pos 1
  rw [Real.exp_neg, ← div_eq_mul_inv, sub_pos, lt_div_iff₀ hpos]
  nlinarith

theorem cx_step_ret : stepU Real.exp cxData cxRet = some cxNext := by
  have hL : (10000 : ℝ) * (74 / 10 * Real.exp (-1) - Real.exp 1) ≠ 0 :=
    ne_of_gt (by nlinarith [cx_gap_pos])
  have hdet : (crossW cxData (fun o => latentU Real.exp o cxRet) zrow xrow).det ≠ 0 := by
    rw [cx_crossW_ret, Matrix.det_fin_two_of]
    rw [show ∀ a b : ℝ, a * (b + 1) - b * a = a from fun a b => by ring]
    exact hL
  have hmv : (crossW cxData (fun o => latentU Real.exp o cxRet) zrow xrow).mulVec
      ![(74 / 10 * Real.exp (-1) + Real.exp 1 - 2) /
          (10000 * (74 / 10 * Real.exp (-1) - Real.exp 1)), 0] =
      rhsV cxData zrow fun o => latentU Real.exp o cxRet - 1 := by
    rw [cx_crossW_ret, cx_rhs_ret]
    funext i
    fin_cases i <;>
      (simp only [Matrix.cons_mulVec, Matrix.cons_dotProduct_cons,
         Matrix.dotProduct_empty, Matrix.cons_val_zero, Matrix.cons_val_one,
         Matrix.head_cons, Matrix.of_apply, Fin.zero_eta, Fin.mk_one,
         Fin.isValue, mul_zero, add_zero]
       rw [← mul_div_assoc, mul_div_cancel_left₀ _ hL])
  rw [stepU_eval Real.exp cxData cxRet _ hdet hmv]
  congr 1
  funext i
  fin_cases i <;> simp [cxRet, cxNext]

/-- Claim C6 (amended): when the nonlinear loop converges and returns a
vector, that vector is the output of the final Gauss–Newton update and
differs from the iterate that update was applied to by at most the
tolerance `1e-4`; a bound on one FURTHER update applied to the returned
vector does not hold in general (see the counterexample). -/
theorem converged_last_step_small (aexp : α → α) (rows : List (Obs k α))
    (fuel : ℕ) (seed v : Fin (k + 2) → α)
    (h : gnLoop (stepU aexp rows) fuel seed = .ok v) :
    ∃ u, stepU aexp rows u = some v ∧ dchange u v ≤ 1 / 10000 :=
  gnLoop_ok_last _ fuel seed v h

/-- Witness for the amended C6: on the witness data the loop converges at
the seed, which is the output of the final update, within tolerance. -/
theorem converged_last_step_small_witness :
    gnLoop (stepU qexp wData) 1 ![0, 0] = .ok ![0, 0] ∧
    stepU qexp wData ![0, 0] = some ![0, 0] ∧
    dchange (![0, 0] : Fin 2 → ℚ) ![0, 0] ≤ 1 / 10000 := by
  have hs : stepU qexp wData ![0, 0] = some ![0, 0] :=
    opt_eq_some _ 0 _ (of_decide_eq_true (by with_unfolding_all rfl))
      (of_decide_eq_true (by with_unfolding_all rfl))
  have hok : gnLoop (stepU qexp wData) 1 ![0, 0] = .ok ![0, 0] := by
    rw [gnLoop_succ _ 0 _ _ hs, if_pos ?_]
    rw [dchange_self]
    norm_num
  have hlast := converged_last_step_small qexp wData 1 ![0, 0] ![0, 0] hok
  refine ⟨hok, hs, ?_⟩
  rw [dchange_self]
  norm_num

/-- Counterexample to Claim C6 as stated: on `cxData` the nonlinear
iteration converges (from `cxSeed`, in one pass whose change is exactly
the tolerance) and the estimator returns `cxRet`; yet one further
Gauss–Newton update moves `cxRet` by about `0.085`, far more than the
tolerance `1e-4`. -/
theorem nonlinear_idempotence_cex :
    vb_nonlinearIV Real.exp cxData cxSeed 1 = .ok cxRet ∧
    stepU Real.exp cxData cxRet = some cxNext ∧
    1 / 10000 < dchange cxRet cxNext := by
  have hloop : gnLoop (stepU Real.exp cxData) 1 cxSeed = .ok cxRet := by
    rw [gnLoop_succ _ 0 _ _ cx_step_seed, if_pos ?_]
    rw [dchange_pair]
    simp only [cxSeed, cxRet, Matrix.cons_val_zero, Matrix.cons_val_one, Matrix.head_cons]
    rw [show -((1 : ℝ) / 10000) - 0 = -(1 / 10000) by ring, abs_neg,
      show (-5 : ℝ) - -5 = 0 by ring, abs_zero]
    rw [abs_of_pos (by norm_num : (0:ℝ) < 1 / 10000)]
    simp
  have hvb : vb_nonlinearIV Real.exp cxData cxSeed 1 = .ok cxRet := by
    rw [vb_nonlinearIV, hloop]
    dsimp only
    rw [if_neg ?_]
    simp only [cxRet, Matrix.cons_val_zero]
    norm_num
  refine ⟨hvb, cx_step_ret, ?_⟩
  rw [dchange_pair]
  simp only [cxRet, cxNext, Matrix.cons_val_zero, Matrix.cons_val_one, Matrix.head_cons]
  have hL : (0 : ℝ) < 10000 * (74 / 10 * Real.exp (-1) - Real.exp 1) := by
    nlinarith [cx_gap_pos]
  have hEgt : (1 : ℝ) < Real.exp 1 := by
    nlinarith [Real.exp_one_gt_d9]
  have hnum : 10000 * (74 / 10 * Real.exp (-1) - Real.exp 1) * (1 / 10000) <
      74 / 10 * Real.exp (-1) + Real.exp 1 - 2 := by
    nlinarith [cx_gap_pos]
  have hmain : 1 / 10000 < (74 / 10 * Real.exp (-1) + Real.exp 1 - 2) /
      (10000 * (74 / 10 * Real.exp (-1) - Real.exp 1)) := by
    rw [lt_div_iff₀ hL]
    nlinarith [hnum]
  calc (1 : ℝ) / 10000
      < (74 / 10 * Real.exp (-1) + Real.exp 1 - 2) /
          (10000 * (74 / 10 * Real.exp (-1) - Real.exp 1)) := hmain
    _ ≤ |(0 : ℝ) - (74 / 10 * Real.exp (-1) + Real.exp 1 - 2) /
          (10000 * (74 / 10 * Real.exp (-1) - Real.exp 1))| := by
        rw [zero_sub, abs_neg]
        exact le_abs_self _
    _ ≤ _ := le_sup_left

end DemandIV
